import Mathlib

/-!
Verification development for the THREE.Terrain heightmap library.

The definitions below are a shallow embedding of the JavaScript source:

* `clamp`, Diamond-Square (`dsGenerate`, `dsApply`, `DiamondSquare`) embed
  `THREE.Terrain.DiamondSquare` from THREE.Terrain.js;
* `MultiPass` embeds `THREE.Terrain.MultiPass`;
* `distanceToManhattan`, `distanceToChebyshev`, `distanceToQuadratic` embed the
  `THREE.Vector2` prototype extensions of the Worley module;
* `toHeightmapData` / `fromHeightmapG` embed the pixel loops of
  `THREE.Terrain.toHeightmap` / `THREE.Terrain.fromHeightmap`;
* `fromArray1D` embeds `THREE.Terrain.fromArray1D` from core.js;
* `PoissonDisks` and its helpers embed `THREE.Terrain.Worley.PoissonDisks`.

Heightfields are modelled as total functions from the flat vertex index, the
2D scratch heightmap of Diamond-Square as a total function from the two array
indices, and JavaScript's `Math.random()` draws as an explicit stream
`rnd : Nat -> _` consumed in source order.  Number-valued code is embedded over
the rationals where no square roots or trigonometry occur, and over the reals
for the Worley/Poisson module, which uses `Math.sqrt`, `Math.cos` and
`Math.sin`.
-/

namespace Terrain

/-- Embedding of `THREE.Math.clamp(value, min, max)`, which returns
`Math.max(min, Math.min(max, value))`. -/
def clamp (value mn mx : ℚ) : ℚ := max mn (min mx value)

/-! ### Diamond-Square (THREE.Terrain.js, `THREE.Terrain.DiamondSquare`) -/

/-- Point update of the 2D scratch heightmap `heightmap[a][b] = v`. -/
def write2 (hm : ℕ → ℕ → ℚ) (a b : ℕ) (v : ℚ) : ℕ → ℕ → ℚ :=
  fun i j => if i = a ∧ j = b then v else hm i j

/-- State threaded through the Diamond-Square generation loop: the scratch
heightmap, the current `smoothing` amplitude and the number of random draws
consumed so far. -/
structure DSState where
  hm : ℕ → ℕ → ℚ
  smoothing : ℚ
  ctr : ℕ

/-- One random displacement:
`options.easing(Math.random()) * smoothing * 2 - smoothing`. -/
def dsDraw (easing : ℚ → ℚ) (rnd : ℕ → ℚ) (s : DSState) : ℚ :=
  easing (rnd s.ctr) * s.smoothing * 2 - s.smoothing

/-- Body of the square step for one cell: the cell centre
`heightmap[x+half][y+half]` is set to the average of the four corners plus a
random displacement. -/
def squareCell (easing : ℚ → ℚ) (rnd : ℕ → ℚ) (half whole : ℕ) (s : DSState) (x y : ℕ) :
    DSState :=
  let d := dsDraw easing rnd s
  let avg := (s.hm x y + s.hm (x + whole) y + s.hm x (y + whole) + s.hm (x + whole) (y + whole))
      * (1 / 4)
  { s with hm := write2 s.hm (x + half) (y + half) (avg + d), ctr := s.ctr + 1 }

/-- Index list of a loop `for (v = 0; v < bound; v += step)`, assuming
`step` divides `bound`. -/
def multiples (step bound : ℕ) : List ℕ := (List.range (bound / step)).map (· * step)

/-- Square step of one level: both loops run over multiples of `whole` below
`segments`. -/
def squareStep (easing : ℚ → ℚ) (rnd : ℕ → ℚ) (segments half whole : ℕ) (s : DSState) :
    DSState :=
  (multiples whole segments).foldl (fun t x =>
    (multiples whole segments).foldl (fun u y => squareCell easing rnd half whole u x y) t) s

/-- Body of the diamond step for one point: `heightmap[x][y]` is set to the
average of its four (toroidally wrapped) neighbours plus a random displacement,
and points on the `x = 0` / `y = 0` edges are mirrored to the far edge. -/
def diamondCell (easing : ℚ → ℚ) (rnd : ℕ → ℚ) (segments half : ℕ) (s : DSState) (x y : ℕ) :
    DSState :=
  let size := segments + 1
  let d := dsDraw easing rnd s
  let avg := (s.hm ((x + size - half) % size) y + s.hm ((x + half) % size) y
      + s.hm x ((y + half) % size) + s.hm x ((y + size - half) % size)) * (1 / 4) + d
  let hm1 := write2 s.hm x y avg
  let hm2 := if x = 0 then write2 hm1 segments y avg else hm1
  let hm3 := if y = 0 then write2 hm2 x segments avg else hm2
  { s with hm := hm3, ctr := s.ctr + 1 }

/-- Index list of the inner diamond loop
`for (y = (x+half) % l; y < segments; y += l)`. -/
def diamondYs (segments l half x : ℕ) : List ℕ :=
  (List.range ((segments - (x + half) % l + (l - 1)) / l)).map (fun j => (x + half) % l + j * l)

/-- Diamond step of one level: `x` runs over multiples of `half` below
`segments`, `y` starts at `(x+half) % l` and advances by `l`. -/
def diamondStep (easing : ℚ → ℚ) (rnd : ℕ → ℚ) (segments half l : ℕ) (s : DSState) : DSState :=
  (multiples half segments).foldl (fun t x =>
    (diamondYs segments l half x).foldl (fun u y => diamondCell easing rnd segments half u x y) t) s

/-- Outer Diamond-Square loop `for (l = segments; l >= 2; l /= 2)`, expressed by
recursion on the exponent: the argument `k + 1` runs the level with
`l = 2 ^ (k + 1)`, `half = 2 ^ k`, after halving `smoothing`, then recurses. -/
def dsLevels (easing : ℚ → ℚ) (rnd : ℕ → ℚ) (segments : ℕ) : ℕ → DSState → DSState
  | 0, s => s
  | k + 1, s =>
    let s0 : DSState := { s with smoothing := s.smoothing / 2 }
    dsLevels easing rnd segments k
      (diamondStep easing rnd segments (2 ^ k) (2 ^ (k + 1))
        (squareStep easing rnd segments (2 ^ k) (2 ^ (k + 1)) s0))

/-- The loop `for (n = 1; Math.pow(2, n) < segments; n++) {}`, with explicit
fuel to make the recursion structural. -/
def findExpGo (sv : ℕ) : ℕ → ℕ → ℕ
  | 0, n => n
  | f + 1, n => if 2 ^ n < sv then findExpGo sv f (n + 1) else n

/-- The exponent `n` computed by `THREE.Terrain.DiamondSquare` for
`segments = Math.max(options.xSegments, options.ySegments) + 1`.  Fuel `sv`
is enough because `2 ^ sv > sv`. -/
def dsExp (xSegments ySegments : ℕ) : ℕ :=
  findExpGo (max xSegments ySegments + 1) (max xSegments ySegments + 1) 1

/-- The internal grid side length: `segments = Math.pow(2, n)`. -/
def dsSegments (xSegments ySegments : ℕ) : ℕ := 2 ^ dsExp xSegments ySegments

/-- Initial Diamond-Square state: all-zero scratch heightmap and
`smoothing = options.maxHeight - options.minHeight`, no draws consumed. -/
def dsInitState (minHeight maxHeight : ℚ) : DSState :=
  { hm := fun _ _ => 0, smoothing := maxHeight - minHeight, ctr := 0 }

/-- The complete Diamond-Square heightmap generation (everything before the
final "Apply heightmap" loop). -/
def dsGenerate (easing : ℚ → ℚ) (rnd : ℕ → ℚ) (xSegments ySegments : ℕ)
    (minHeight maxHeight : ℚ) : DSState :=
  dsLevels easing rnd (dsSegments xSegments ySegments) (dsExp xSegments ySegments)
    (dsInitState minHeight maxHeight)

/-- Index pairs `(i, j)` visited by the "Apply heightmap" loops
`for (i = 0; i < xl; i++) for (j = 0; j < yl; j++)`. -/
def applyPairs (xSegments ySegments : ℕ) : List (ℕ × ℕ) :=
  (List.range (xSegments + 1)).flatMap
    (fun i => (List.range (ySegments + 1)).map (fun j => (i, j)))

/-- The "Apply heightmap" loop:
`g[j * xl + i].z += THREE.Math.clamp(heightmap[i][j], minHeight, maxHeight)`. -/
def dsApply (g : ℕ → ℚ) (hm : ℕ → ℕ → ℚ) (xSegments ySegments : ℕ)
    (minHeight maxHeight : ℚ) : ℕ → ℚ :=
  (applyPairs xSegments ySegments).foldl (fun f p =>
    Function.update f (p.2 * (xSegments + 1) + p.1)
      (f (p.2 * (xSegments + 1) + p.1) + clamp (hm p.1 p.2) minHeight maxHeight)) g

/-- Embedding of `THREE.Terrain.DiamondSquare(g, options)`: generate the
scratch heightmap, then clamp-add it into the target heightfield `g`. -/
def DiamondSquare (easing : ℚ → ℚ) (rnd : ℕ → ℚ) (g : ℕ → ℚ) (xSegments ySegments : ℕ)
    (minHeight maxHeight : ℚ) : ℕ → ℚ :=
  dsApply g (dsGenerate easing rnd xSegments ySegments minHeight maxHeight).hm
    xSegments ySegments minHeight maxHeight

/-- The toroidal edge-mirroring invariant of the Diamond-Square scratch
heightmap: row `0` equals row `segments` and column `0` equals column
`segments`. -/
def MirrorInv (hm : ℕ → ℕ → ℚ) (segments : ℕ) : Prop :=
  (∀ y ≤ segments, hm 0 y = hm segments y) ∧ (∀ x ≤ segments, hm x 0 = hm x segments)

/-! ### MultiPass (THREE.Terrain.js, `THREE.Terrain.MultiPass`) -/

/-- The fields of the shared options record that `MultiPass` touches, plus the
grid dimensions that generator passes read. -/
structure TOptions where
  maxHeight : ℚ
  minHeight : ℚ
  xSegments : ℕ
  ySegments : ℕ

/-- One element of the `passes` array: a heightmap method and an optional
`granularity`.  Generator methods mutate the heightfield and read the options
record; per the generator interface they return the updated heightfield. -/
structure Pass where
  method : (ℕ → ℚ) → TOptions → (ℕ → ℚ)
  granularity : Option ℚ

/-- The loop of `THREE.Terrain.MultiPass`: every pass after the first narrows
the height band by `move = (maxHeight - minHeight) * 0.5 * 0.1 * granularity`
before running; the Boolean records whether this is the first pass. -/
def multiPassGo (g : ℕ → ℚ) (o : TOptions) : List Pass → Bool → (ℕ → ℚ) × TOptions
  | [], _ => (g, o)
  | p :: ps, first =>
    let o' := if first then o else
      let gran := p.granularity.getD 1
      let move := (o.maxHeight - o.minHeight) * (1 / 2) * (1 / 10) * gran
      { o with maxHeight := o.maxHeight - move, minHeight := o.minHeight + move }
    multiPassGo (p.method g o') o' ps false

/-- Embedding of `THREE.Terrain.MultiPass(g, options, passes)`: the original
`maxHeight` / `minHeight` are saved before the loop and written back into the
shared options record afterwards. -/
def MultiPass (g : ℕ → ℚ) (options : TOptions) (passes : List Pass) : (ℕ → ℚ) × TOptions :=
  let maxHeight := options.maxHeight
  let minHeight := options.minHeight
  let r := multiPassGo g options passes true
  (r.1, { r.2 with maxHeight := maxHeight, minHeight := minHeight })

/-! ### Distance metrics (Worley module, `THREE.Vector2.prototype.distanceTo*`) -/

/-- `distanceToManhattan`: `Math.abs(this.x - b.x) + Math.abs(this.y - b.y)`. -/
noncomputable def distanceToManhattan (a b : ℝ × ℝ) : ℝ :=
  |a.1 - b.1| + |a.2 - b.2|

/-- `distanceToChebyshev`: with `c = |x1-x2|` and `d = |y1-y2|`, returns
`c <= d ? d : c`. -/
noncomputable def distanceToChebyshev (a b : ℝ × ℝ) : ℝ :=
  let c := |a.1 - b.1|
  let d := |a.2 - b.2|
  if c ≤ d then d else c

/-- `distanceToQuadratic`: with `c = |x1-x2|` and `d = |y1-y2|`, returns
`c*c + c*d + d*d`. -/
noncomputable def distanceToQuadratic (a b : ℝ × ℝ) : ℝ :=
  let c := |a.1 - b.1|
  let d := |a.2 - b.2|
  c * c + c * d + d * d

/-! ### Heightmap image import/export (THREE.Terrain.js, `fromHeightmap` / `toHeightmap`) -/

/-- Clamping performed by the canvas `Uint8ClampedArray` when an integer is
stored into `ImageData.data`. -/
def clamp8 (z : ℤ) : ℤ := max 0 (min 255 z)

/-- Embedding of the pixel loop of `THREE.Terrain.toHeightmap`: channel `idx`
of the image data buffer after the loop.  For every vertex `i = row*cols+col`
the code writes `Math.round(((g[i].z - minHeight) / spread) * 255)` into the
three colour channels `4*i .. 4*i+2` and `255` into the alpha channel; the
rest of the zero-initialized buffer is untouched. -/
def toHeightmapData (g : ℕ → ℚ) (minHeight maxHeight : ℚ) (rows cols : ℕ) : ℕ → ℤ :=
  fun idx =>
    if idx / 4 < rows * cols then
      if idx % 4 = 3 then 255
      else clamp8 (round ((g (idx / 4) - minHeight) / (maxHeight - minHeight) * 255))
    else 0

/-- Embedding of the pixel loop of `THREE.Terrain.fromHeightmap`:
`g[i].z = (data[idx] + data[idx+1] + data[idx+2]) / 765 * spread`
with `idx = i * 4` and `spread = maxHeight - minHeight`. -/
def fromHeightmapG (data : ℕ → ℤ) (minHeight maxHeight : ℚ) : ℕ → ℚ :=
  fun i => (((data (i * 4) : ℚ) + (data (i * 4 + 1) : ℚ) + (data (i * 4 + 2) : ℚ)) / 765)
    * (maxHeight - minHeight)

/-! ### fromArray1D (core.js, `THREE.Terrain.fromArray1D`) -/

/-- Embedding of `THREE.Terrain.fromArray1D(vertices, src)`.  The JavaScript
loop runs `i` against the real-valued bound `Math.min(vertices.length / 3,
src.length)`, so the set of executed indices is
`i < min(ceil(vertices.length / 3), src.length)`; each iteration performs
`vertices[i * 3 + 2] = src[i]`, and a typed-array store past the end of
`vertices` is silently dropped, which `List.set` models exactly. -/
def fromArray1D (vertices src : List ℚ) : List ℚ :=
  (List.range (min ((vertices.length + 2) / 3) src.length)).foldl
    (fun vs i => vs.set (i * 3 + 2) (src.getD i 0)) vertices

/-! ### Poisson disk sampling (Worley module, `THREE.Terrain.Worley.PoissonDisks`)

This part of the source uses `Math.sqrt`, `Math.cos` and `Math.sin`, so it is
embedded over the reals; the conditionals on real comparisons use classical
decidability. -/

open Classical in
/-- Derived minimum distance: `minDist = Math.sqrt((width + height) * 2.5)`,
capped by `if (minDist > numPoints * 0.67) minDist = numPoints * 0.67`. -/
noncomputable def pdMinDist (width height : ℝ) (numPoints : ℕ) : ℝ :=
  if Real.sqrt ((width + height) * 2.5) > numPoints * 0.67 then numPoints * 0.67
  else Real.sqrt ((width + height) * 2.5)

open Classical in
/-- Background grid cell size: `cellSize = minDist / Math.sqrt(2)`, raised to
`2` when below `2`. -/
noncomputable def pdCellSize (minDist : ℝ) : ℝ :=
  if minDist / Real.sqrt 2 < 2 then 2 else minDist / Real.sqrt 2

/-- `putInGrid(grid, point, cellSize)`: store the point in the background grid
cell `(floor(x / cellSize), floor(y / cellSize))`. -/
noncomputable def putInGrid (grid : ℤ → ℤ → Option (ℝ × ℝ)) (point : ℝ × ℝ) (cellSize : ℝ) :
    ℤ → ℤ → Option (ℝ × ℝ) :=
  fun a b => if a = ⌊point.1 / cellSize⌋ ∧ b = ⌊point.2 / cellSize⌋ then some point else grid a b

/-- `inRectangle(point, width, height)`:
`x >= 0 && y >= 0 && x <= width+1 && y <= height+1`. -/
def inRectangle (point : ℝ × ℝ) (width height : ℝ) : Prop :=
  0 ≤ point.1 ∧ 0 ≤ point.2 ∧ point.1 ≤ width + 1 ∧ point.2 ≤ height + 1

/-- `inNeighborhood(grid, point, minDist, cellSize)`: some cell `(a, b)` of the
3x3 block around the candidate's own cell satisfies the source's test
`a !== gx && b !== gy`, holds a stored point, and its corner
`(a*cellSize, b*cellSize)` lies within `minDist` of the candidate.  (Note the
source compares against the cell corner, not the stored point, and the test
skips every cell sharing a row or column with the candidate's cell.) -/
def inNeighborhood (grid : ℤ → ℤ → Option (ℝ × ℝ)) (point : ℝ × ℝ) (minDist cellSize : ℝ) :
    Prop :=
  ∃ a ∈ [⌊point.1 / cellSize⌋ - 1, ⌊point.1 / cellSize⌋, ⌊point.1 / cellSize⌋ + 1],
    ∃ b ∈ [⌊point.2 / cellSize⌋ - 1, ⌊point.2 / cellSize⌋, ⌊point.2 / cellSize⌋ + 1],
      a ≠ ⌊point.1 / cellSize⌋ ∧ b ≠ ⌊point.2 / cellSize⌋ ∧ (grid a b).isSome = true ∧
        Real.sqrt ((point.1 - a * cellSize) * (point.1 - a * cellSize)
          + (point.2 - b * cellSize) * (point.2 - b * cellSize)) < minDist

/-- `generateRandomPointAround(point, minDist)` with its two `Math.random()`
draws made explicit: `radius = minDist * (r1 + 1)`, `angle = 2 * PI * r2`. -/
noncomputable def generateRandomPointAround (point : ℝ × ℝ) (minDist r1 r2 : ℝ) : ℝ × ℝ :=
  (point.1 + minDist * (r1 + 1) * Real.cos (2 * Real.pi * r2),
   point.2 + minDist * (r1 + 1) * Real.sin (2 * Real.pi * r2))

/-- State of the Poisson-disk sampler: the background grid, the active
(`processList`) and accepted (`samplePoints`) lists, the outer-loop iteration
counter `count`, and the number of random draws consumed. -/
structure PDState where
  grid : ℤ → ℤ → Option (ℝ × ℝ)
  processList : List (ℝ × ℝ)
  samplePoints : List (ℝ × ℝ)
  count : ℕ
  ctr : ℕ

/-- Acceptance of a candidate: push onto both lists and store in the grid. -/
noncomputable def pdAccept (s : PDState) (newPoint : ℝ × ℝ) (cellSize : ℝ) : PDState :=
  { s with processList := s.processList ++ [newPoint],
           samplePoints := s.samplePoints ++ [newPoint],
           grid := putInGrid s.grid newPoint cellSize }

open Classical in
/-- The inner candidate loop `for (i = 0; i < numPoints; i++)` of
`PoissonDisks`, for the removed active point `point`; the numeric argument is
the number of candidate iterations left.  An accepted candidate that brings
the accepted count to `numPoints` stops the loop (the source's `break`). -/
noncomputable def pdInner (rnd : ℕ → ℝ) (width height minDist cellSize : ℝ) (numPoints : ℕ)
    (point : ℝ × ℝ) : ℕ → PDState → PDState
  | 0, s => s
  | i + 1, s =>
    let newPoint := generateRandomPointAround point minDist (rnd s.ctr) (rnd (s.ctr + 1))
    let s0 : PDState := { s with ctr := s.ctr + 2 }
    if inRectangle newPoint width height ∧ ¬ inNeighborhood s.grid newPoint minDist cellSize then
      let s1 := pdAccept s0 newPoint cellSize
      if numPoints ≤ s1.samplePoints.length then s1
      else pdInner rnd width height minDist cellSize numPoints point i s1
    else pdInner rnd width height minDist cellSize numPoints point i s0

/-- One iteration of the `while` loop of `PoissonDisks`, up to its exit tests:
`removeAndReturnRandomElement` picks index `floor(random * length)` — the
removed point seeds the candidate loop, which runs `numPoints` times. -/
noncomputable def pdOuterBody (rnd : ℕ → ℝ) (width height minDist cellSize : ℝ)
    (numPoints : ℕ) (s : PDState) : PDState :=
  let idx := (⌊rnd s.ctr * s.processList.length⌋).toNat
  let point := s.processList.getD idx (0, 0)
  let s0 : PDState := { s with processList := s.processList.eraseIdx idx, ctr := s.ctr + 1 }
  pdInner rnd width height minDist cellSize numPoints point numPoints s0

open Classical in
/-- The outer `while (processList.length)` loop of `PoissonDisks` with explicit
fuel; each unfolding performs one `removeAndReturnRandomElement` splice, runs
the candidate loop, then applies the source's three exits: accepted count
reached `numPoints`, the safety counter `++count > numPoints * numPoints`, or
(on the next test) an empty active list.  Exhausted fuel yields `none`. -/
noncomputable def pdOuter (rnd : ℕ → ℝ) (width height minDist cellSize : ℝ) (numPoints : ℕ) :
    ℕ → PDState → Option (List (ℝ × ℝ))
  | 0, _ => none
  | f + 1, s =>
    if s.processList.length = 0 then some s.samplePoints
    else
      let s1 := pdOuterBody rnd width height minDist cellSize numPoints s
      if numPoints ≤ s1.samplePoints.length then some s1.samplePoints
      else if numPoints * numPoints < s1.count + 1 then some s1.samplePoints
      else pdOuter rnd width height minDist cellSize numPoints f { s1 with count := s1.count + 1 }

/-- Initial sampler state: one uniformly drawn first point, pushed onto both
lists and stored in the grid. -/
noncomputable def pdInit (rnd : ℕ → ℝ) (width height cellSize : ℝ) : PDState :=
  { grid := putInGrid (fun _ _ => none) (rnd 0 * width, rnd 1 * height) cellSize,
    processList := [(rnd 0 * width, rnd 1 * height)],
    samplePoints := [(rnd 0 * width, rnd 1 * height)],
    count := 0, ctr := 2 }

/-- Embedding of `THREE.Terrain.Worley.PoissonDisks(width, height, numPoints)`
for an explicit `numPoints >= 1` (the source's defaulting of a missing
`numPoints` is not modelled) and an explicit random stream. -/
noncomputable def PoissonDisks (rnd : ℕ → ℝ) (width height : ℝ) (numPoints fuel : ℕ) :
    Option (List (ℝ × ℝ)) :=
  pdOuter rnd width height (pdMinDist width height numPoints)
    (pdCellSize (pdMinDist width height numPoints)) numPoints fuel
    (pdInit rnd width height (pdCellSize (pdMinDist width height numPoints)))

/-- The all-zero random stream, used for concrete runs. -/
def pdStreamZero : ℕ → ℝ := fun _ => 0

/-- Random stream whose sixth draw (the radius draw of the second candidate)
is `33/67`, the rest `0`; used for the concrete four-point run. -/
noncomputable def pdStreamC4 : ℕ → ℝ := fun n => if n = 5 then 33 / 67 else 0

/-! ### Theorems -/

/-- Claim C6: for every options record and every list of passes, after
`MultiPass(g, options, passes)` returns, `options.maxHeight` and
`options.minHeight` equal exactly the values they held immediately before the
call, even though they are narrowed between passes during execution. -/
theorem C6_multipass_restores (g : ℕ → ℚ) (options : TOptions) (passes : List Pass) :
    (MultiPass g options passes).2.maxHeight = options.maxHeight ∧
    (MultiPass g options passes).2.minHeight = options.minHeight :=
  ⟨rfl, rfl⟩

theorem distanceToChebyshev_eq_max (a b : ℝ × ℝ) :
    distanceToChebyshev a b = max |a.1 - b.1| |a.2 - b.2| := by
  unfold distanceToChebyshev
  rcases le_or_lt |a.1 - b.1| |a.2 - b.2| with h | h
  · simp [h, max_eq_right h]
  · simp [not_le.mpr h, max_eq_left h.le]

/-- Claim C7: each of `distanceToManhattan`, `distanceToChebyshev` and
`distanceToQuadratic` is symmetric, non-negative, and zero if and only if the
two points coincide. -/
theorem C7_metric_properties :
    (∀ a b : ℝ × ℝ, distanceToManhattan a b = distanceToManhattan b a) ∧
    (∀ a b : ℝ × ℝ, 0 ≤ distanceToManhattan a b) ∧
    (∀ a b : ℝ × ℝ, distanceToManhattan a b = 0 ↔ a = b) ∧
    (∀ a b : ℝ × ℝ, distanceToChebyshev a b = distanceToChebyshev b a) ∧
    (∀ a b : ℝ × ℝ, 0 ≤ distanceToChebyshev a b) ∧
    (∀ a b : ℝ × ℝ, distanceToChebyshev a b = 0 ↔ a = b) ∧
    (∀ a b : ℝ × ℝ, distanceToQuadratic a b = distanceToQuadratic b a) ∧
    (∀ a b : ℝ × ℝ, 0 ≤ distanceToQuadratic a b) ∧
    (∀ a b : ℝ × ℝ, distanceToQuadratic a b = 0 ↔ a = b) := by
  refine ⟨?_, ?_, ?_, ?_, ?_, ?_, ?_, ?_, ?_⟩
  · intro a b
    unfold distanceToManhattan
    rw [abs_sub_comm a.1 b.1, abs_sub_comm a.2 b.2]
  · intro a b
    exact add_nonneg (abs_nonneg _) (abs_nonneg _)
  · intro a b
    unfold distanceToManhattan
    constructor
    · intro h
      have h1 : |a.1 - b.1| = 0 ∧ |a.2 - b.2| = 0 :=
        (add_eq_zero_iff_of_nonneg (abs_nonneg _) (abs_nonneg _)).mp h
      have e1 : a.1 = b.1 := sub_eq_zero.mp (abs_eq_zero.mp h1.1)
      have e2 : a.2 = b.2 := sub_eq_zero.mp (abs_eq_zero.mp h1.2)
      exact Prod.ext e1 e2
    · intro h
      subst h
      simp
  · intro a b
    rw [distanceToChebyshev_eq_max, distanceToChebyshev_eq_max,
      abs_sub_comm a.1 b.1, abs_sub_comm a.2 b.2]
  · intro a b
    rw [distanceToChebyshev_eq_max]
    exact le_max_of_le_left (abs_nonneg _)
  · intro a b
    rw [distanceToChebyshev_eq_max]
    constructor
    · intro h
      have h1 : |a.1 - b.1| ≤ 0 := le_of_max_le_left h.le
      have h2 : |a.2 - b.2| ≤ 0 := le_of_max_le_right h.le
      have e1 : a.1 = b.1 := sub_eq_zero.mp (abs_eq_zero.mp (le_antisymm h1 (abs_nonneg _)))
      have e2 : a.2 = b.2 := sub_eq_zero.mp (abs_eq_zero.mp (le_antisymm h2 (abs_nonneg _)))
      exact Prod.ext e1 e2
    · intro h
      subst h
      simp
  · intro a b
    unfold distanceToQuadratic
    rw [abs_sub_comm a.1 b.1, abs_sub_comm a.2 b.2]
  · intro a b
    unfold distanceToQuadratic
    have hc := abs_nonneg (a.1 - b.1)
    have hd := abs_nonneg (a.2 - b.2)
    positivity
  · intro a b
    unfold distanceToQuadratic
    have hc := abs_nonneg (a.1 - b.1)
    have hd := abs_nonneg (a.2 - b.2)
    constructor
    · intro h
      dsimp only at h
      have e1 : |a.1 - b.1| = 0 := by nlinarith
      have e2 : |a.2 - b.2| = 0 := by nlinarith
      exact Prod.ext (sub_eq_zero.mp (abs_eq_zero.mp e1)) (sub_eq_zero.mp (abs_eq_zero.mp e2))
    · intro h
      subst h
      simp

theorem le_findExpGo (sv : ℕ) : ∀ (f n : ℕ), n ≤ findExpGo sv f n := by
  intro f
  induction f with
  | zero => intro n; exact le_rfl
  | succ f ih =>
    intro n
    simp only [findExpGo]
    by_cases h : 2 ^ n < sv
    · rw [if_pos h]
      exact le_trans (Nat.le_succ n) (ih (n + 1))
    · rw [if_neg h]

theorem findExpGo_ge (sv : ℕ) : ∀ (f n : ℕ), sv ≤ 2 ^ (n + f) →
    sv ≤ 2 ^ findExpGo sv f n := by
  intro f
  induction f with
  | zero => intro n h; simpa using h
  | succ f ih =>
    intro n h
    simp only [findExpGo]
    by_cases hn : 2 ^ n < sv
    · rw [if_pos hn]
      apply ih
      have : n + 1 + f = n + (f + 1) := by omega
      rw [this]
      exact h
    · rw [if_neg hn]
      exact not_lt.mp hn

theorem findExpGo_min (sv : ℕ) : ∀ (f n : ℕ), ∀ m, n ≤ m → sv ≤ 2 ^ m →
    findExpGo sv f n ≤ m := by
  intro f
  induction f with
  | zero => intro n m hm _; exact hm
  | succ f ih =>
    intro n m hm hsv
    simp only [findExpGo]
    by_cases hn : 2 ^ n < sv
    · rw [if_pos hn]
      apply ih
      · have hpow : 2 ^ n < 2 ^ m := lt_of_lt_of_le hn hsv
        have := (Nat.pow_lt_pow_iff_right (by norm_num : 1 < 2)).mp hpow
        omega
      · exact hsv
    · rw [if_neg hn]
      exact hm

/-- Claim C2 (counterexample): at `xSegments = ySegments = 2`, the smallest
power of two that is at least `max(xSegments, ySegments) = 2` is `2` itself,
but the code computes `segments = 4`. -/
theorem C2_counterexample :
    dsSegments 2 2 = 4 ∧ (2 : ℕ) = 2 ^ 1 ∧ max 2 2 ≤ 2 ∧ (2 : ℕ) < dsSegments 2 2 := by
  refine ⟨by decide, by decide, by decide, by decide⟩

/-- Claim C2 (amended): for `xSegments, ySegments >= 1`, the internal side
length `segments` is the smallest power of two that is at least
`max(xSegments, ySegments) + 1` (equivalently, strictly greater than
`max(xSegments, ySegments)`), and the scratch heightfield starts all zero. -/
theorem C2_amended (xSegments ySegments : ℕ) (hx : 1 ≤ xSegments) (hy : 1 ≤ ySegments) :
    max xSegments ySegments + 1 ≤ dsSegments xSegments ySegments ∧
    (∃ k, dsSegments xSegments ySegments = 2 ^ k) ∧
    (∀ m, max xSegments ySegments + 1 ≤ 2 ^ m → dsSegments xSegments ySegments ≤ 2 ^ m) ∧
    (∀ minHeight maxHeight : ℚ, ∀ i j : ℕ, (dsInitState minHeight maxHeight).hm i j = 0) := by
  have hfuel : max xSegments ySegments + 1
      ≤ 2 ^ (1 + (max xSegments ySegments + 1)) := by
    calc max xSegments ySegments + 1
        ≤ 2 ^ (max xSegments ySegments + 1) :=
          le_of_lt (Nat.lt_two_pow _)
      _ ≤ 2 ^ (1 + (max xSegments ySegments + 1)) :=
          Nat.pow_le_pow_right (by norm_num) (by omega)
  refine ⟨?_, ⟨dsExp xSegments ySegments, rfl⟩, ?_, fun _ _ _ _ => rfl⟩
  · exact findExpGo_ge _ _ _ hfuel
  · intro m hm
    apply Nat.pow_le_pow_right (by norm_num)
    apply findExpGo_min
    · by_contra hcon
      have hm0 : m = 0 := by omega
      subst hm0
      simp at hm
      omega
    · exact hm

theorem foldl_update_add_not_mem {α : Type} (key : α → ℕ) (val : α → ℚ) :
    ∀ (l : List α) (g : ℕ → ℚ) (k : ℕ), k ∉ l.map key →
      (l.foldl (fun f p => Function.update f (key p) (f (key p) + val p)) g) k = g k := by
  intro l
  induction l with
  | nil => intro g k _; rfl
  | cons hd tl ih =>
    intro g k hk
    simp only [List.map_cons, List.mem_cons] at hk
    push_neg at hk
    rw [List.foldl_cons, ih _ _ hk.2]
    exact Function.update_noteq (fun h => hk.1 h) _ _

theorem foldl_update_add_mem {α : Type} (key : α → ℕ) (val : α → ℚ) :
    ∀ (l : List α) (g : ℕ → ℚ) (a : α), (l.map key).Nodup → a ∈ l →
      (l.foldl (fun f p => Function.update f (key p) (f (key p) + val p)) g) (key a)
        = g (key a) + val a := by
  intro l
  induction l with
  | nil => intro g a _ ha; cases ha
  | cons hd tl ih =>
    intro g a hnd ha
    simp only [List.map_cons, List.nodup_cons] at hnd
    rw [List.foldl_cons]
    rcases List.mem_cons.mp ha with h | h
    · subst h
      rw [foldl_update_add_not_mem key val tl _ _ hnd.1]
      simp [Function.update_same]
    · have hne : key a ≠ key hd := by
        intro he
        exact hnd.1 (he ▸ List.mem_map_of_mem key h)
      rw [ih _ _ hnd.2 h, Function.update_noteq hne]

theorem mem_applyPairs {xs ys : ℕ} {p : ℕ × ℕ} :
    p ∈ applyPairs xs ys ↔ p.1 < xs + 1 ∧ p.2 < ys + 1 := by
  obtain ⟨i, j⟩ := p
  simp only [applyPairs, List.mem_flatMap, List.mem_map, List.mem_range]
  constructor
  · rintro ⟨a, ha, b, hb, he⟩
    obtain ⟨rfl, rfl⟩ := Prod.mk.injEq .. ▸ he
    exact ⟨ha, hb⟩
  · rintro ⟨hi, hj⟩
    exact ⟨i, hi, j, hj, rfl⟩

theorem applyPairs_nodup (xs ys : ℕ) : (applyPairs xs ys).Nodup := by
  unfold applyPairs
  rw [List.nodup_flatMap]
  constructor
  · intro i _
    exact (List.nodup_range _).map (fun a b he => (Prod.mk.injEq .. ▸ he).2)
  · apply List.Pairwise.imp ?_ (List.nodup_range (xs + 1))
    intro a b hne
    simp only [List.disjoint_left]
    intro p hp hq
    simp only [List.mem_map, List.mem_range] at hp hq
    obtain ⟨j1, _, rfl⟩ := hp
    obtain ⟨j2, _, he⟩ := hq
    exact hne ((Prod.mk.injEq .. ▸ he).1.symm)

theorem applyPairs_key_nodup (xs ys : ℕ) :
    ((applyPairs xs ys).map (fun p : ℕ × ℕ => p.2 * (xs + 1) + p.1)).Nodup := by
  apply List.Nodup.map_on ?_ (applyPairs_nodup xs ys)
  intro p hp q hq he
  have hp' := mem_applyPairs.mp hp
  have hq' := mem_applyPairs.mp hq
  have e1 : p.1 = q.1 := by
    have h := congrArg (fun t => t % (xs + 1)) he
    simp only [Nat.add_comm _ p.1, Nat.add_comm _ q.1, Nat.add_mul_mod_self_right] at h
    rwa [Nat.mod_eq_of_lt hp'.1, Nat.mod_eq_of_lt hq'.1] at h
  have e2 : p.2 = q.2 := by
    rw [e1] at he
    have h2 : p.2 * (xs + 1) = q.2 * (xs + 1) := by omega
    exact Nat.eq_of_mul_eq_mul_right (by omega) h2
  exact Prod.ext e1 e2

/-- Claim C1: for every grid vertex `(i, j)` with `i <= xSegments` and
`j <= ySegments`, Diamond-Square adds to (does not overwrite) the target
heightfield entry at flat index `j * (xSegments + 1) + i`, and the value added
is the scratch heightmap value `heightmap[i][j]` clamped individually to
`[minHeight, maxHeight]`. -/
theorem C1_clamped_accumulation (easing : ℚ → ℚ) (rnd : ℕ → ℚ) (g : ℕ → ℚ)
    (xSegments ySegments : ℕ) (minHeight maxHeight : ℚ) (i j : ℕ)
    (hi : i ≤ xSegments) (hj : j ≤ ySegments) :
    DiamondSquare easing rnd g xSegments ySegments minHeight maxHeight
        (j * (xSegments + 1) + i)
      = g (j * (xSegments + 1) + i)
        + clamp ((dsGenerate easing rnd xSegments ySegments minHeight maxHeight).hm i j)
            minHeight maxHeight := by
  unfold DiamondSquare dsApply
  exact foldl_update_add_mem (fun p : ℕ × ℕ => p.2 * (xSegments + 1) + p.1)
    (fun p => clamp ((dsGenerate easing rnd xSegments ySegments minHeight maxHeight).hm p.1 p.2)
      minHeight maxHeight)
    (applyPairs xSegments ySegments) g (i, j) (applyPairs_key_nodup _ _)
    (mem_applyPairs.mpr ⟨by omega, by omega⟩)

/-- Witness for C1_clamped_accumulation at a concrete vertex. -/
theorem C1_witness :
    DiamondSquare (fun q => q) (fun _ => 0) (fun _ => 0) 1 1 0 1 (1 * (1 + 1) + 1)
      = (fun _ : ℕ => (0 : ℚ)) (1 * (1 + 1) + 1)
        + clamp ((dsGenerate (fun q => q) (fun _ => 0) 1 1 0 1).hm 1 1) 0 1 :=
  C1_clamped_accumulation (fun q => q) (fun _ => 0) (fun _ => 0) 1 1 0 1 1 1
    (by decide) (by decide)

theorem mirror_write_interior {hm : ℕ → ℕ → ℚ} {seg a b : ℕ} {v : ℚ}
    (h : MirrorInv hm seg) (ha0 : 0 < a) (has : a < seg) (hb0 : 0 < b) (hbs : b < seg) :
    MirrorInv (write2 hm a b v) seg := by
  constructor
  · intro y hy
    simp only [write2]
    split_ifs <;> first | rfl | exact h.1 y hy | (exfalso; omega)
  · intro x hx
    simp only [write2]
    split_ifs <;> first | rfl | exact h.2 x hx | (exfalso; omega)

theorem mirror_write_pair_col {hm : ℕ → ℕ → ℚ} {seg y : ℕ} {v : ℚ}
    (h : MirrorInv hm seg) (hy0 : y ≠ 0) (hys : y < seg) :
    MirrorInv (write2 (write2 hm 0 y v) seg y v) seg := by
  have hseg : 0 < seg := by omega
  constructor
  · intro j hj
    simp only [write2]
    split_ifs <;> first | rfl | exact h.1 j hj | (exfalso; omega)
  · intro x hx
    simp only [write2]
    split_ifs <;> first | rfl | exact h.2 x hx | (exfalso; omega)

theorem mirror_write_pair_row {hm : ℕ → ℕ → ℚ} {seg x : ℕ} {v : ℚ}
    (h : MirrorInv hm seg) (hx0 : x ≠ 0) (hxs : x < seg) :
    MirrorInv (write2 (write2 hm x 0 v) x seg v) seg := by
  have hseg : 0 < seg := by omega
  constructor
  · intro j hj
    simp only [write2]
    split_ifs <;> first | rfl | exact h.1 j hj | (exfalso; omega)
  · intro z hz
    simp only [write2]
    split_ifs <;> first | rfl | exact h.2 z hz | (exfalso; omega)

theorem mirror_diamondCell (easing : ℚ → ℚ) (rnd : ℕ → ℚ) {segments half : ℕ}
    {s : DSState} {x y : ℕ} (h : MirrorInv s.hm segments) (hx : x < segments)
    (hy : y < segments) (hxy : ¬(x = 0 ∧ y = 0)) :
    MirrorInv (diamondCell easing rnd segments half s x y).hm segments := by
  unfold diamondCell
  dsimp only
  by_cases hx0 : x = 0
  · subst hx0
    have hy0 : y ≠ 0 := fun hc => hxy ⟨rfl, hc⟩
    rw [if_pos rfl, if_neg hy0]
    exact mirror_write_pair_col h hy0 hy
  · by_cases hy0 : y = 0
    · subst hy0
      rw [if_neg hx0, if_pos rfl]
      exact mirror_write_pair_row h hx0 hx
    · rw [if_neg hx0, if_neg hy0]
      exact mirror_write_interior h (Nat.pos_of_ne_zero hx0) hx (Nat.pos_of_ne_zero hy0) hy

theorem mirror_squareCell (easing : ℚ → ℚ) (rnd : ℕ → ℚ) {segments half whole : ℕ}
    {s : DSState} {x y : ℕ} (h : MirrorInv s.hm segments)
    (hx1 : 0 < x + half) (hx2 : x + half < segments)
    (hy1 : 0 < y + half) (hy2 : y + half < segments) :
    MirrorInv (squareCell easing rnd half whole s x y).hm segments := by
  unfold squareCell
  dsimp only
  exact mirror_write_interior h hx1 hx2 hy1 hy2

theorem foldl_preserve {α β : Type} (P : β → Prop) (f : β → α → β) :
    ∀ (l : List α) (s : β), (∀ a ∈ l, ∀ t, P t → P (f t a)) → P s → P (l.foldl f s) := by
  intro l
  induction l with
  | nil => intro s _ hs; exact hs
  | cons hd tl ih =>
    intro s hstep hs
    rw [List.foldl_cons]
    exact ih _ (fun a ha t ht => hstep a (List.mem_cons_of_mem _ ha) t ht)
      (hstep hd (List.mem_cons_self _ _) s hs)

theorem multiples_add_le {step bound x : ℕ} (hdvd : step ∣ bound)
    (hx : x ∈ multiples step bound) : x + step ≤ bound := by
  simp only [multiples, List.mem_map, List.mem_range] at hx
  obtain ⟨t, ht, rfl⟩ := hx
  have h2 : (t + 1) * step ≤ (bound / step) * step := Nat.mul_le_mul_right _ ht
  rw [Nat.div_mul_cancel hdvd] at h2
  rw [add_mul, one_mul] at h2
  exact h2

theorem mirror_squareStep (easing : ℚ → ℚ) (rnd : ℕ → ℚ) {segments half whole : ℕ}
    {s : DSState} (h : MirrorInv s.hm segments) (hdvd : whole ∣ segments)
    (hhalf : 0 < half) (hhw : half < whole) :
    MirrorInv (squareStep easing rnd segments half whole s).hm segments := by
  unfold squareStep
  apply foldl_preserve (fun t : DSState => MirrorInv t.hm segments)
  · intro a ha t ht
    apply foldl_preserve (fun u : DSState => MirrorInv u.hm segments)
    · intro b hb u hu
      have hax := multiples_add_le hdvd ha
      have hby := multiples_add_le hdvd hb
      exact mirror_squareCell easing rnd hu (by omega) (by omega) (by omega) (by omega)
    · exact ht
  · exact h

theorem diamondYs_lt {segments l half x y : ℕ} (hl : 0 < l)
    (hls : l ≤ segments) (hy : y ∈ diamondYs segments l half x) : y < segments := by
  simp only [diamondYs, List.mem_map, List.mem_range] at hy
  obtain ⟨j, hj, rfl⟩ := hy
  have hstl : (x + half) % l < l := Nat.mod_lt _ hl
  have h2 : (j + 1) * l ≤ ((segments - (x + half) % l + (l - 1)) / l) * l :=
    Nat.mul_le_mul_right _ hj
  have h3 : ((segments - (x + half) % l + (l - 1)) / l) * l
      ≤ segments - (x + half) % l + (l - 1) := Nat.div_mul_le_self _ _
  have h4 : (j + 1) * l ≤ segments - (x + half) % l + (l - 1) := le_trans h2 h3
  rw [add_mul, one_mul] at h4
  generalize hJ : j * l = J at h4
  omega

theorem diamondYs_ne_zero {segments l half x y : ℕ} (hhl : half < l) (hh0 : 0 < half)
    (hx0 : x = 0) (hy : y ∈ diamondYs segments l half x) : y ≠ 0 := by
  subst hx0
  simp only [diamondYs, List.mem_map, List.mem_range] at hy
  obtain ⟨j, hj, rfl⟩ := hy
  have hmod : (0 + half) % l = half := by
    rw [Nat.zero_add, Nat.mod_eq_of_lt hhl]
  rw [hmod]
  generalize hJ : j * l = J
  omega

theorem mirror_diamondStep (easing : ℚ → ℚ) (rnd : ℕ → ℚ) {segments half l : ℕ}
    {s : DSState} (h : MirrorInv s.hm segments) (hdvd : half ∣ segments)
    (hldvd : l ∣ segments) (hh0 : 0 < half) (hhl : half < l) (hseg : 0 < segments) :
    MirrorInv (diamondStep easing rnd segments half l s).hm segments := by
  unfold diamondStep
  apply foldl_preserve (fun t : DSState => MirrorInv t.hm segments)
  · intro a ha t ht
    apply foldl_preserve (fun u : DSState => MirrorInv u.hm segments)
    · intro b hb u hu
      have hl0 : 0 < l := lt_trans hh0 hhl
      have hls : l ≤ segments := Nat.le_of_dvd hseg hldvd
      have haxw := multiples_add_le hdvd ha
      have hax : a < segments := by omega
      have hby : b < segments := diamondYs_lt hl0 hls hb
      have hxy : ¬(a = 0 ∧ b = 0) := by
        rintro ⟨ha0, hb0⟩
        exact diamondYs_ne_zero hhl hh0 ha0 hb hb0
      exact mirror_diamondCell easing rnd hu hax hby hxy
    · exact ht
  · exact h

theorem mirror_dsLevels (easing : ℚ → ℚ) (rnd : ℕ → ℚ) {segments : ℕ}
    (hseg : 0 < segments) :
    ∀ (k : ℕ) (s : DSState), 2 ^ k ∣ segments → MirrorInv s.hm segments →
      MirrorInv (dsLevels easing rnd segments k s).hm segments := by
  intro k
  induction k with
  | zero => intro s _ h; exact h
  | succ k ih =>
    intro s hdvd h
    simp only [dsLevels]
    apply ih
    · exact dvd_trans (pow_dvd_pow 2 (Nat.le_succ k)) hdvd
    · apply mirror_diamondStep easing rnd ?_
        (dvd_trans (pow_dvd_pow 2 (Nat.le_succ k)) hdvd) hdvd
        (pow_pos (by norm_num) k) (Nat.pow_lt_pow_right (by norm_num) (Nat.lt_succ_self k))
        hseg
      apply mirror_squareStep easing rnd ?_ hdvd (pow_pos (by norm_num) k)
        (Nat.pow_lt_pow_right (by norm_num) (Nat.lt_succ_self k))
      exact h

/-- Claim C3: after the Diamond-Square displacement loop completes, the
internal scratch heightmap satisfies `heightmap[0][y] == heightmap[segments][y]`
for every `y <= segments` and `heightmap[x][0] == heightmap[x][segments]` for
every `x <= segments` (toroidal edge-mirroring invariant). -/
theorem C3_toroidal (easing : ℚ → ℚ) (rnd : ℕ → ℚ) (xSegments ySegments : ℕ)
    (minHeight maxHeight : ℚ) :
    (∀ y ≤ dsSegments xSegments ySegments,
        (dsGenerate easing rnd xSegments ySegments minHeight maxHeight).hm 0 y
          = (dsGenerate easing rnd xSegments ySegments minHeight maxHeight).hm
              (dsSegments xSegments ySegments) y) ∧
    (∀ x ≤ dsSegments xSegments ySegments,
        (dsGenerate easing rnd xSegments ySegments minHeight maxHeight).hm x 0
          = (dsGenerate easing rnd xSegments ySegments minHeight maxHeight).hm x
              (dsSegments xSegments ySegments)) := by
  have h := @mirror_dsLevels easing rnd
    (dsSegments xSegments ySegments) (pow_pos (by norm_num) _)
    (dsExp xSegments ySegments) (dsInitState minHeight maxHeight) dvd_rfl
    ⟨fun _ _ => rfl, fun _ _ => rfl⟩
  exact h

/-- Witness for C3_toroidal at a concrete configuration and index. -/
theorem C3_witness :
    (dsGenerate (fun q => q) (fun _ => 0) 1 1 0 1).hm 0 2
      = (dsGenerate (fun q => q) (fun _ => 0) 1 1 0 1).hm (dsSegments 1 1) 2 :=
  (C3_toroidal (fun q => q) (fun _ => 0) 1 1 0 1).1 2 (by decide)

/-- Witness for C2_amended at `xSegments = ySegments = 1`. -/
theorem C2_witness :
    max 1 1 + 1 ≤ dsSegments 1 1 ∧
    (∃ k, dsSegments 1 1 = 2 ^ k) ∧
    (∀ m, max 1 1 + 1 ≤ 2 ^ m → dsSegments 1 1 ≤ 2 ^ m) ∧
    (∀ minHeight maxHeight : ℚ, ∀ i j : ℕ, (dsInitState minHeight maxHeight).hm i j = 0) :=
  C2_amended 1 1 (by decide) (by decide)

/-- Claim C8 (counterexample): with `minHeight = 100`, `maxHeight = 355` and a
constant heightfield at elevation `100`, exporting with `toHeightmap` and
re-importing with `fromHeightmap` yields `0`, not the original `100`; the gap
far exceeds the half-quantization-step rounding tolerance `spread / 510`. -/
theorem C8_counterexample :
    fromHeightmapG (toHeightmapData (fun _ => 100) 100 355 1 1) 100 355 0 = 0 ∧
    (fun _ : ℕ => (100 : ℚ)) 0 = 100 ∧ (0 : ℚ) ≠ 100 ∧
    |(0 : ℚ) - 100| > (355 - 100) / 510 := by
  refine ⟨?_, rfl, by norm_num, by norm_num⟩
  norm_num [fromHeightmapG, toHeightmapData, clamp8]

/-- Claim C8 (amended): `toHeightmap` writes
`round((z - minHeight) / (maxHeight - minHeight) * 255)` into each colour
channel and `fromHeightmap` maps the channel sum through `/765 * spread`, so
the round trip recovers `z - minHeight` (not `z`) up to rounding: the error is
at most `(maxHeight - minHeight) / 510`. -/
theorem C8_amended (g : ℕ → ℚ) (minHeight maxHeight : ℚ) (rows cols i : ℕ)
    (hlt : minHeight < maxHeight) (hi : i < rows * cols)
    (hlo : minHeight ≤ g i) (hhi : g i ≤ maxHeight) :
    |fromHeightmapG (toHeightmapData g minHeight maxHeight rows cols) minHeight maxHeight i
        - (g i - minHeight)| ≤ (maxHeight - minHeight) / 510 := by
  have hsp : (0 : ℚ) < maxHeight - minHeight := by linarith
  have hv0 : 0 ≤ (g i - minHeight) / (maxHeight - minHeight) * 255 := by
    apply mul_nonneg (div_nonneg (by linarith) hsp.le) (by norm_num)
  have hv1 : (g i - minHeight) / (maxHeight - minHeight) * 255 ≤ 255 := by
    have h1 : (g i - minHeight) / (maxHeight - minHeight) ≤ 1 := by
      rw [div_le_one hsp]; linarith
    nlinarith
  have habs := abs_le.mp (abs_sub_round ((g i - minHeight) / (maxHeight - minHeight) * 255))
  have hr0 : (0 : ℤ) ≤ round ((g i - minHeight) / (maxHeight - minHeight) * 255) := by
    have h2 : (-1 : ℚ)
        < (round ((g i - minHeight) / (maxHeight - minHeight) * 255) : ℚ) := by
      linarith [habs.2]
    have h3 : (-1 : ℤ) < round ((g i - minHeight) / (maxHeight - minHeight) * 255) := by
      exact_mod_cast h2
    omega
  have hr255 : round ((g i - minHeight) / (maxHeight - minHeight) * 255) ≤ 255 := by
    have h2 : (round ((g i - minHeight) / (maxHeight - minHeight) * 255) : ℚ) < 256 := by
      linarith [habs.1]
    have h3 : round ((g i - minHeight) / (maxHeight - minHeight) * 255) < (256 : ℤ) := by
      exact_mod_cast h2
    omega
  have hclamp : clamp8 (round ((g i - minHeight) / (maxHeight - minHeight) * 255))
      = round ((g i - minHeight) / (maxHeight - minHeight) * 255) := by
    unfold clamp8
    rw [min_eq_right hr255, max_eq_right hr0]
  have hidx0 : i * 4 / 4 = i := by omega
  have hidx1 : (i * 4 + 1) / 4 = i := by omega
  have hidx2 : (i * 4 + 2) / 4 = i := by omega
  have hm0 : i * 4 % 4 = 0 := by omega
  have hm1 : (i * 4 + 1) % 4 = 1 := by omega
  have hm2 : (i * 4 + 2) % 4 = 2 := by omega
  have hd0 : toHeightmapData g minHeight maxHeight rows cols (i * 4)
      = round ((g i - minHeight) / (maxHeight - minHeight) * 255) := by
    simp [toHeightmapData, hidx0, hm0, hi, hclamp]
  have hd1 : toHeightmapData g minHeight maxHeight rows cols (i * 4 + 1)
      = round ((g i - minHeight) / (maxHeight - minHeight) * 255) := by
    simp [toHeightmapData, hidx1, hm1, hi, hclamp]
  have hd2 : toHeightmapData g minHeight maxHeight rows cols (i * 4 + 2)
      = round ((g i - minHeight) / (maxHeight - minHeight) * 255) := by
    simp [toHeightmapData, hidx2, hm2, hi, hclamp]
  have hgv : (g i - minHeight) / (maxHeight - minHeight) * 255 * (maxHeight - minHeight)
      = (g i - minHeight) * 255 := by
    field_simp
  have key1 : ((g i - minHeight) / (maxHeight - minHeight) * 255
        - (round ((g i - minHeight) / (maxHeight - minHeight) * 255) : ℚ))
        * (maxHeight - minHeight)
      ≤ (1 / 2) * (maxHeight - minHeight) :=
    mul_le_mul_of_nonneg_right habs.2 hsp.le
  have key2 : (-(1 / 2) : ℚ) * (maxHeight - minHeight)
      ≤ ((g i - minHeight) / (maxHeight - minHeight) * 255
        - (round ((g i - minHeight) / (maxHeight - minHeight) * 255) : ℚ))
        * (maxHeight - minHeight) :=
    mul_le_mul_of_nonneg_right habs.1 hsp.le
  simp only [fromHeightmapG, hd0, hd1, hd2]
  rw [abs_le]
  constructor
  · nlinarith [key1, key2, hgv]
  · nlinarith [key1, key2, hgv]

/-- Witness for C8_amended on a concrete heightfield. -/
theorem C8_witness :
    |fromHeightmapG (toHeightmapData (fun _ => 100) 0 255 1 1) 0 255 0
        - ((fun _ : ℕ => (100 : ℚ)) 0 - 0)| ≤ ((255 : ℚ) - 0) / 510 :=
  C8_amended (fun _ => 100) 0 255 1 1 0 (by norm_num) (by norm_num) (by norm_num) (by norm_num)

theorem foldl_set_get?_not_mem (src : List ℚ) :
    ∀ (rs : List ℕ) (vs : List ℚ) (j : ℕ), (∀ i ∈ rs, i * 3 + 2 ≠ j) →
      (rs.foldl (fun acc i => acc.set (i * 3 + 2) (src.getD i 0)) vs).get? j = vs.get? j := by
  intro rs
  induction rs with
  | nil => intro vs j _; rfl
  | cons hd tl ih =>
    intro vs j hne
    rw [List.foldl_cons, ih _ _ (fun i hi => hne i (List.mem_cons_of_mem _ hi))]
    exact List.get?_set_ne _ _ (hne hd (List.mem_cons_self _ _))

theorem foldl_set_length (src : List ℚ) :
    ∀ (rs : List ℕ) (vs : List ℚ),
      (rs.foldl (fun acc i => acc.set (i * 3 + 2) (src.getD i 0)) vs).length = vs.length := by
  intro rs
  induction rs with
  | nil => intro vs; rfl
  | cons hd tl ih =>
    intro vs
    rw [List.foldl_cons, ih, List.length_set]

theorem foldl_set_get?_mem (src : List ℚ) :
    ∀ (rs : List ℕ) (vs : List ℚ) (i0 : ℕ), rs.Nodup → i0 ∈ rs →
      i0 * 3 + 2 < vs.length →
      (rs.foldl (fun acc i => acc.set (i * 3 + 2) (src.getD i 0)) vs).get? (i0 * 3 + 2)
        = some (src.getD i0 0) := by
  intro rs
  induction rs with
  | nil => intro vs i0 _ h; cases h
  | cons hd tl ih =>
    intro vs i0 hnd hm hlen
    rw [List.nodup_cons] at hnd
    rw [List.foldl_cons]
    rcases List.mem_cons.mp hm with h | h
    · subst h
      rw [foldl_set_get?_not_mem src tl _ _ ?_]
      · exact List.get?_set_eq_of_lt _ hlen
      · intro i hi he
        have hieq : i = i0 := by omega
        exact hnd.1 (hieq ▸ hi)
    · exact ih _ _ hnd.2 h (by rw [List.length_set]; exact hlen)

/-- Claim C10: `fromArray1D(vertices, src)` writes only the z components
(indices of the form `3 * i + 2` for `i` below
`min(vertices.length / 3, src.length)`, the executed index set being
`i < min(ceil(vertices.length / 3), src.length)`); every x and y component and
every component beyond the copied prefix is left unchanged, and the buffer
length is preserved. -/
theorem C10_fromArray1D_frame (vertices src : List ℚ) :
    (fromArray1D vertices src).length = vertices.length ∧
    (∀ j, j % 3 ≠ 2 ∨ min ((vertices.length + 2) / 3) src.length ≤ j / 3 →
        (fromArray1D vertices src).get? j = vertices.get? j) ∧
    (∀ i < min ((vertices.length + 2) / 3) src.length, i * 3 + 2 < vertices.length →
        (fromArray1D vertices src).get? (i * 3 + 2) = some (src.getD i 0)) := by
  refine ⟨foldl_set_length src _ _, ?_, ?_⟩
  · intro j hj
    apply foldl_set_get?_not_mem
    intro i hi he
    have hib := List.mem_range.mp hi
    omega
  · intro i hib hlen
    exact foldl_set_get?_mem src _ _ i (List.nodup_range _) (List.mem_range.mpr hib) hlen

/-- Witness for C10_fromArray1D_frame on a concrete six-entry vertex buffer. -/
theorem C10_witness :
    (fromArray1D [1, 2, 3, 4, 5, 6] [9, 9]).get? 0 = [(1 : ℚ), 2, 3, 4, 5, 6].get? 0 ∧
    (fromArray1D [1, 2, 3, 4, 5, 6] [9, 9]).get? (1 * 3 + 2)
      = some ([(9 : ℚ), 9].getD 1 0) :=
  ⟨(C10_fromArray1D_frame [1, 2, 3, 4, 5, 6] [9, 9]).2.1 0 (Or.inl (by decide)),
   (C10_fromArray1D_frame [1, 2, 3, 4, 5, 6] [9, 9]).2.2 1 (by decide) (by decide)⟩

theorem pdInner_growth (rnd : ℕ → ℝ) (w h md cs : ℝ) (N : ℕ) (pt : ℝ × ℝ) :
    ∀ (i : ℕ) (s : PDState), ∃ a,
      (pdInner rnd w h md cs N pt i s).samplePoints.length = s.samplePoints.length + a ∧
      (pdInner rnd w h md cs N pt i s).processList.length = s.processList.length + a := by
  intro i
  induction i with
  | zero => intro s; exact ⟨0, rfl, rfl⟩
  | succ i ih =>
    intro s
    simp only [pdInner]
    split_ifs with hc hN
    · refine ⟨1, ?_, ?_⟩ <;> simp [pdAccept]
    · obtain ⟨a, ha1, ha2⟩ := ih (pdAccept { s with ctr := s.ctr + 2 }
        (generateRandomPointAround pt md (rnd s.ctr) (rnd (s.ctr + 1))) cs)
      refine ⟨a + 1, ?_, ?_⟩
      · rw [ha1]; simp [pdAccept]; omega
      · rw [ha2]; simp [pdAccept]; omega
    · obtain ⟨a, ha1, ha2⟩ := ih { s with ctr := s.ctr + 2 }
      exact ⟨a, ha1, ha2⟩

theorem pdInner_le (rnd : ℕ → ℝ) (w h md cs : ℝ) (N : ℕ) (pt : ℝ × ℝ) :
    ∀ (i : ℕ) (s : PDState), s.samplePoints.length < N →
      (pdInner rnd w h md cs N pt i s).samplePoints.length ≤ N := by
  intro i
  induction i with
  | zero => intro s hs; exact hs.le
  | succ i ih =>
    intro s hs
    simp only [pdInner]
    split_ifs with hc hN
    · simp [pdAccept]; omega
    · apply ih
      simp only [pdAccept] at hN ⊢
      simp at hN ⊢
      omega
    · exact ih _ hs

theorem pdOuterBody_samples (rnd : ℕ → ℝ) (w h md cs : ℝ) (N : ℕ) (s : PDState) :
    ∃ a, (pdOuterBody rnd w h md cs N s).samplePoints.length
      = s.samplePoints.length + a := by
  unfold pdOuterBody
  obtain ⟨a, ha1, _⟩ := pdInner_growth rnd w h md cs N
    (s.processList.getD (⌊rnd s.ctr * (s.processList.length : ℝ)⌋).toNat (0, 0)) N
    { s with
      processList :=
        s.processList.eraseIdx (⌊rnd s.ctr * (s.processList.length : ℝ)⌋).toNat
      ctr := s.ctr + 1 }
  exact ⟨a, ha1⟩

theorem pdOuterBody_le (rnd : ℕ → ℝ) (w h md cs : ℝ) (N : ℕ) (s : PDState)
    (hs : s.samplePoints.length < N) :
    (pdOuterBody rnd w h md cs N s).samplePoints.length ≤ N := by
  unfold pdOuterBody
  exact pdInner_le rnd w h md cs N _ N _ hs

theorem pdOuterBody_strong (rnd : ℕ → ℝ) (w h md cs : ℝ) (N : ℕ) (s : PDState)
    (hval : ∀ n, 0 ≤ rnd n ∧ rnd n < 1) (hne : s.processList.length ≠ 0) :
    ∃ a, (pdOuterBody rnd w h md cs N s).samplePoints.length
        = s.samplePoints.length + a ∧
      (pdOuterBody rnd w h md cs N s).processList.length
        = s.processList.length - 1 + a := by
  have hlen : 0 < s.processList.length := Nat.pos_of_ne_zero hne
  have hnn : (0 : ℤ) ≤ ⌊rnd s.ctr * (s.processList.length : ℝ)⌋ :=
    Int.floor_nonneg.mpr (mul_nonneg (hval s.ctr).1 (Nat.cast_nonneg _))
  have hflt : ⌊rnd s.ctr * (s.processList.length : ℝ)⌋ < (s.processList.length : ℤ) := by
    apply Int.floor_lt.mpr
    push_cast
    calc rnd s.ctr * (s.processList.length : ℝ)
        < 1 * (s.processList.length : ℝ) := by
          apply mul_lt_mul_of_pos_right (hval s.ctr).2
          exact_mod_cast hlen
      _ = (s.processList.length : ℝ) := one_mul _
  have hidx : (⌊rnd s.ctr * (s.processList.length : ℝ)⌋).toNat < s.processList.length := by
    omega
  have herase := List.length_eraseIdx_add_one hidx
  unfold pdOuterBody
  obtain ⟨a, ha1, ha2⟩ := pdInner_growth rnd w h md cs N
    (s.processList.getD (⌊rnd s.ctr * (s.processList.length : ℝ)⌋).toNat (0, 0)) N
    { s with
      processList :=
        s.processList.eraseIdx (⌊rnd s.ctr * (s.processList.length : ℝ)⌋).toNat
      ctr := s.ctr + 1 }
  refine ⟨a, ha1, ?_⟩
  rw [ha2]
  simp only
  omega

theorem pdOuter_term (rnd : ℕ → ℝ) (w h md cs : ℝ) (N : ℕ)
    (hval : ∀ n, 0 ≤ rnd n ∧ rnd n < 1) :
    ∀ (f : ℕ) (s : PDState), s.samplePoints.length < N →
      s.processList.length + (N - s.samplePoints.length) ≤ f →
      (pdOuter rnd w h md cs N f s).isSome := by
  intro f
  induction f with
  | zero =>
    intro s h1 h2
    exfalso
    omega
  | succ f ih =>
    intro s h1 h2
    simp only [pdOuter]
    split_ifs with he hN hcap
    · simp
    · simp
    · simp
    · obtain ⟨a, ha1, ha2⟩ := pdOuterBody_strong rnd w h md cs N s hval he
      apply ih
      · simpa [ha1] using hN
      · simp only [ha1, ha2] at hN ⊢
        omega

theorem pdOuter_some_of_ge (rnd : ℕ → ℝ) (w h md cs : ℝ) (N : ℕ) (f : ℕ) (s : PDState)
    (hf : 1 ≤ f) (hN : N ≤ s.samplePoints.length) :
    (pdOuter rnd w h md cs N f s).isSome := by
  obtain ⟨f', rfl⟩ : ∃ f', f = f' + 1 := ⟨f - 1, by omega⟩
  simp only [pdOuter]
  split_ifs with he hN1 hcap
  · simp
  · simp
  · simp
  · exfalso
    obtain ⟨a, ha⟩ := pdOuterBody_samples rnd w h md cs N s
    omega

theorem pdOuter_ge (rnd : ℕ → ℝ) (w h md cs : ℝ) (N : ℕ) :
    ∀ (f : ℕ) (s : PDState) (pts : List (ℝ × ℝ)),
      pdOuter rnd w h md cs N f s = some pts → s.samplePoints.length ≤ pts.length := by
  intro f
  induction f with
  | zero => intro s pts hsome; simp [pdOuter] at hsome
  | succ f ih =>
    intro s pts hsome
    simp only [pdOuter] at hsome
    obtain ⟨a, ha⟩ := pdOuterBody_samples rnd w h md cs N s
    split_ifs at hsome with he hN hcap
    · rw [Option.some.injEq] at hsome
      rw [← hsome]
    · rw [Option.some.injEq] at hsome
      rw [← hsome]
      omega
    · rw [Option.some.injEq] at hsome
      rw [← hsome]
      omega
    · have := ih _ _ hsome
      simp only at this
      omega

theorem pdOuter_le (rnd : ℕ → ℝ) (w h md cs : ℝ) (N : ℕ) :
    ∀ (f : ℕ) (s : PDState) (pts : List (ℝ × ℝ)), s.samplePoints.length < N →
      pdOuter rnd w h md cs N f s = some pts → pts.length ≤ N := by
  intro f
  induction f with
  | zero => intro s pts _ hsome; simp [pdOuter] at hsome
  | succ f ih =>
    intro s pts hlt hsome
    simp only [pdOuter] at hsome
    split_ifs at hsome with he hN hcap
    · rw [Option.some.injEq] at hsome
      rw [← hsome]
      exact hlt.le
    · rw [Option.some.injEq] at hsome
      rw [← hsome]
      exact pdOuterBody_le rnd w h md cs N s hlt
    · rw [Option.some.injEq] at hsome
      rw [← hsome]
      exact pdOuterBody_le rnd w h md cs N s hlt
    · apply ih _ _ ?_ hsome
      simp only
      omega

/-- Claim C5: for `width, height, numPoints >= 1` and any valid random stream,
`PoissonDisks` terminates within `numPoints * numPoints` removal iterations
(fuel `numPoints * numPoints` suffices for the loop to reach one of its exits)
and returns the accumulated point list rather than raising an error. -/
theorem C5_termination (rnd : ℕ → ℝ) (width height : ℝ) (numPoints : ℕ)
    (hval : ∀ n, 0 ≤ rnd n ∧ rnd n < 1) (hn : 1 ≤ numPoints)
    (hw : 1 ≤ width) (hh : 1 ≤ height) :
    ∃ pts, PoissonDisks rnd width height numPoints (numPoints * numPoints) = some pts := by
  unfold PoissonDisks
  rcases Nat.lt_or_ge 1 numPoints with hN | hN
  · apply Option.isSome_iff_exists.mp
    apply pdOuter_term rnd width height _ _ numPoints hval
    · simp [pdInit]
      omega
    · simp [pdInit]
      calc 1 + (numPoints - 1) = numPoints := by omega
        _ ≤ numPoints * numPoints := Nat.le_mul_of_pos_left numPoints (by omega)
  · have hN1 : numPoints = 1 := by omega
    subst hN1
    apply Option.isSome_iff_exists.mp
    apply pdOuter_some_of_ge
    · norm_num
    · simp [pdInit]

/-- Witness for C5_termination on the all-zero stream. -/
theorem C5_witness :
    ∃ pts, PoissonDisks pdStreamZero 10 10 1 (1 * 1) = some pts :=
  C5_termination pdStreamZero 10 10 1 (fun _ => ⟨le_rfl, by norm_num [pdStreamZero]⟩)
    (by norm_num) (by norm_num) (by norm_num)

/-- Claim C9 (amended): every returned Poisson-disk point list contains at
least one point, and at most `numPoints` points whenever `numPoints >= 2`;
for `numPoints = 1` the list can exceed `numPoints` (see the counterexample,
where two points are returned). -/
theorem C9_amended (rnd : ℕ → ℝ) (width height : ℝ) (numPoints fuel : ℕ)
    (pts : List (ℝ × ℝ))
    (hsome : PoissonDisks rnd width height numPoints fuel = some pts) :
    1 ≤ pts.length ∧ (2 ≤ numPoints → pts.length ≤ numPoints) := by
  unfold PoissonDisks at hsome
  constructor
  · have h := pdOuter_ge rnd width height _ _ numPoints fuel _ pts hsome
    simpa [pdInit] using h
  · intro h2
    apply pdOuter_le rnd width height _ _ numPoints fuel _ pts ?_ hsome
    simp [pdInit]
    omega

theorem pdMinDist_eval1 : pdMinDist 10 10 1 = 67 / 100 := by
  unfold pdMinDist
  rw [if_pos]
  · norm_num
  · have h : ((1 : ℕ) : ℝ) * 0.67 < Real.sqrt ((10 + 10) * 2.5) := by
      rw [show ((10 : ℝ) + 10) * 2.5 = 50 by norm_num]
      rw [Real.lt_sqrt (by positivity)]
      norm_num
    exact h

theorem pdCellSize_eval1 : pdCellSize (67 / 100) = 2 := by
  unfold pdCellSize
  rw [if_pos]
  have hs2 : (0 : ℝ) < Real.sqrt 2 := Real.sqrt_pos.mpr (by norm_num)
  rw [div_lt_iff hs2]
  nlinarith [Real.sq_sqrt (by norm_num : (0 : ℝ) ≤ 2), Real.sqrt_nonneg 2]

theorem nbhd_run1 :
    ¬ inNeighborhood (putInGrid (fun _ _ => none) (0, 0) 2) ((0 : ℝ) + 67 / 100, 0)
        (67 / 100) 2 := by
  have hfx : ⌊((0 : ℝ) + 67 / 100) / 2⌋ = 0 := by
    rw [Int.floor_eq_iff] <;> norm_num
  have hf0 : ⌊(0 : ℝ) / 2⌋ = 0 := by norm_num
  intro hcon
  simp only [inNeighborhood] at hcon
  obtain ⟨a, ha, b, hb, hag, hbg, hsome, -⟩ := hcon
  simp only [hfx, hf0] at ha hb hag hbg
  fin_cases ha <;> fin_cases hb <;>
    simp_all [putInGrid, hf0]

theorem gen_zero (p q m : ℝ) : generateRandomPointAround (p, q) m 0 0 = (p + m, q) := by
  simp [generateRandomPointAround]

theorem inner_run1 :
    pdInner pdStreamZero 10 10 (67 / 100) 2 1 (0, 0) 1
      { grid := putInGrid (fun _ _ => none) (0, 0) 2, processList := [],
        samplePoints := [(0, 0)], count := 0, ctr := 3 }
    = { grid := putInGrid (putInGrid (fun _ _ => none) (0, 0) 2) (0 + 67 / 100, 0) 2,
        processList := [(0 + 67 / 100, 0)], samplePoints := [(0, 0), (0 + 67 / 100, 0)],
        count := 0, ctr := 5 } := by
  have hc : generateRandomPointAround ((0 : ℝ), (0 : ℝ)) (67 / 100) 0 0
      = ((0 : ℝ) + 67 / 100, 0) := gen_zero 0 0 (67 / 100)
  have hrect : inRectangle ((0 : ℝ) + 67 / 100, 0) 10 10 := by
    simp [inRectangle]
    norm_num
  rw [show (1 : ℕ) = 0 + 1 from rfl]
  simp only [pdInner, pdStreamZero, pdAccept]
  rw [hc]
  rw [if_pos ⟨hrect, nbhd_run1⟩]
  simp

theorem body_run1 :
    pdOuterBody pdStreamZero 10 10 (67 / 100) 2 1
      { grid := putInGrid (fun _ _ => none) (0, 0) 2, processList := [(0, 0)],
        samplePoints := [(0, 0)], count := 0, ctr := 2 }
    = { grid := putInGrid (putInGrid (fun _ _ => none) (0, 0) 2) (0 + 67 / 100, 0) 2,
        processList := [(0 + 67 / 100, 0)], samplePoints := [(0, 0), (0 + 67 / 100, 0)],
        count := 0, ctr := 5 } := by
  unfold pdOuterBody
  dsimp only
  simp only [pdStreamZero]
  rw [show (⌊(0 : ℝ) * (([((0 : ℝ), (0 : ℝ))] : List (ℝ × ℝ)).length : ℝ)⌋).toNat = 0 by
    simp]
  exact inner_run1

theorem run1 :
    PoissonDisks pdStreamZero 10 10 1 1 = some [(0, 0), (67 / 100, 0)] := by
  unfold PoissonDisks
  rw [pdMinDist_eval1, pdCellSize_eval1]
  have hinit : pdInit pdStreamZero 10 10 2
      = { grid := putInGrid (fun _ _ => none) (0, 0) 2, processList := [(0, 0)],
          samplePoints := [(0, 0)], count := 0, ctr := 2 } := by
    simp [pdInit, pdStreamZero]
  rw [hinit, show (1 : ℕ) = 0 + 1 from rfl]
  simp only [pdOuter]
  rw [body_run1]
  norm_num



theorem pdMinDist_eval4 : pdMinDist 10 10 4 = 67 / 25 := by
  unfold pdMinDist
  rw [if_pos]
  · norm_num
  · have h : ((4 : ℕ) : ℝ) * 0.67 < Real.sqrt ((10 + 10) * 2.5) := by
      rw [show ((10 : ℝ) + 10) * 2.5 = 50 by norm_num]
      rw [Real.lt_sqrt (by positivity)]
      norm_num
    exact h

theorem pdCellSize_eval4 : pdCellSize (67 / 25) = 2 := by
  unfold pdCellSize
  rw [if_pos]
  have hs2 : (0 : ℝ) < Real.sqrt 2 := Real.sqrt_pos.mpr (by norm_num)
  rw [div_lt_iff hs2]
  nlinarith [Real.sq_sqrt (by norm_num : (0 : ℝ) ≤ 2), Real.sqrt_nonneg 2]

theorem gen_c1 : generateRandomPointAround ((0 : ℝ), (0 : ℝ)) (67 / 25) 0 0
    = ((67 / 25 : ℝ), 0) := by
  simp [generateRandomPointAround]

theorem gen_c2 : generateRandomPointAround ((0 : ℝ), (0 : ℝ)) (67 / 25) (33 / 67) 0
    = ((4 : ℝ), 0) := by
  simp [generateRandomPointAround]
  norm_num

theorem rect_c1 : inRectangle ((67 / 25 : ℝ), 0) 10 10 := by
  simp [inRectangle]
  norm_num

theorem rect_c2 : inRectangle ((4 : ℝ), 0) 10 10 := by
  simp [inRectangle]
  norm_num

theorem nbhd_run4_1 :
    ¬ inNeighborhood (putInGrid (fun _ _ => none) (0, 0) 2) ((67 / 25 : ℝ), 0)
        (67 / 25) 2 := by
  have hfx : ⌊(67 / 25 : ℝ) / 2⌋ = 1 := by
    rw [Int.floor_eq_iff] <;> norm_num
  have hf0 : ⌊(0 : ℝ) / 2⌋ = 0 := by norm_num
  intro hcon
  simp only [inNeighborhood] at hcon
  obtain ⟨a, ha, b, hb, hag, hbg, hsome, -⟩ := hcon
  simp only [hfx, hf0] at ha hb hag hbg
  fin_cases ha <;> fin_cases hb <;>
    simp_all [putInGrid, hf0]

theorem nbhd_run4_2 :
    ¬ inNeighborhood (putInGrid (putInGrid (fun _ _ => none) (0, 0) 2) (67 / 25, 0) 2)
        ((4 : ℝ), 0) (67 / 25) 2 := by
  have hfx : ⌊(4 : ℝ) / 2⌋ = 2 := by norm_num
  have hfc : ⌊(67 / 25 : ℝ) / 2⌋ = 1 := by
    rw [Int.floor_eq_iff] <;> norm_num
  have hf0 : ⌊(0 : ℝ) / 2⌋ = 0 := by norm_num
  intro hcon
  simp only [inNeighborhood] at hcon
  obtain ⟨a, ha, b, hb, hag, hbg, hsome, -⟩ := hcon
  simp only [hfx, hf0] at ha hb hag hbg
  fin_cases ha <;> fin_cases hb <;>
    simp_all [putInGrid, hfc, hf0]

theorem nbhd_run4_3 :
    ¬ inNeighborhood
        (putInGrid (putInGrid (putInGrid (fun _ _ => none) (0, 0) 2) (67 / 25, 0) 2)
          (4, 0) 2)
        ((67 / 25 : ℝ), 0) (67 / 25) 2 := by
  have hfx : ⌊(67 / 25 : ℝ) / 2⌋ = 1 := by
    rw [Int.floor_eq_iff] <;> norm_num
  have hf4 : ⌊(4 : ℝ) / 2⌋ = 2 := by norm_num
  have hf0 : ⌊(0 : ℝ) / 2⌋ = 0 := by norm_num
  intro hcon
  simp only [inNeighborhood] at hcon
  obtain ⟨a, ha, b, hb, hag, hbg, hsome, -⟩ := hcon
  simp only [hfx, hf0] at ha hb hag hbg
  fin_cases ha <;> fin_cases hb <;>
    simp_all [putInGrid, hfx, hf4, hf0]

theorem inner_run4_iter3 :
    pdInner pdStreamC4 10 10 (67 / 25) 2 4 (0, 0) (1 + 1)
      { grid := putInGrid (putInGrid (putInGrid (fun _ _ => none) (0, 0) 2) (67 / 25, 0) 2)
          (4, 0) 2,
        processList := [(67 / 25, 0), (4, 0)],
        samplePoints := [(0, 0), (67 / 25, 0), (4, 0)], count := 0, ctr := 7 }
    = { grid := putInGrid
          (putInGrid (putInGrid (putInGrid (fun _ _ => none) (0, 0) 2) (67 / 25, 0) 2)
            (4, 0) 2) (67 / 25, 0) 2,
        processList := [(67 / 25, 0), (4, 0), (67 / 25, 0)],
        samplePoints := [(0, 0), (67 / 25, 0), (4, 0), (67 / 25, 0)],
        count := 0, ctr := 9 } := by
  have hd1 : pdStreamC4 7 = 0 := by norm_num [pdStreamC4]
  have hd2 : pdStreamC4 (7 + 1) = 0 := by norm_num [pdStreamC4]
  simp only [pdInner]
  dsimp only
  rw [hd1, hd2, gen_c1]
  rw [if_pos ⟨rect_c1, nbhd_run4_3⟩]
  simp only [pdAccept]
  rw [if_pos (by norm_num)]
  simp

theorem inner_run4_iter2 :
    pdInner pdStreamC4 10 10 (67 / 25) 2 4 (0, 0) (2 + 1)
      { grid := putInGrid (putInGrid (fun _ _ => none) (0, 0) 2) (67 / 25, 0) 2,
        processList := [(67 / 25, 0)],
        samplePoints := [(0, 0), (67 / 25, 0)], count := 0, ctr := 5 }
    = { grid := putInGrid
          (putInGrid (putInGrid (putInGrid (fun _ _ => none) (0, 0) 2) (67 / 25, 0) 2)
            (4, 0) 2) (67 / 25, 0) 2,
        processList := [(67 / 25, 0), (4, 0), (67 / 25, 0)],
        samplePoints := [(0, 0), (67 / 25, 0), (4, 0), (67 / 25, 0)],
        count := 0, ctr := 9 } := by
  have hd1 : pdStreamC4 5 = 33 / 67 := by norm_num [pdStreamC4]
  have hd2 : pdStreamC4 (5 + 1) = 0 := by norm_num [pdStreamC4]
  simp only [pdInner]
  dsimp only
  rw [hd1, hd2, gen_c2]
  rw [if_pos ⟨rect_c2, nbhd_run4_2⟩]
  simp only [pdAccept]
  rw [if_neg (by norm_num)]
  exact inner_run4_iter3

theorem inner_run4_iter1 :
    pdInner pdStreamC4 10 10 (67 / 25) 2 4 (0, 0) (3 + 1)
      { grid := putInGrid (fun _ _ => none) (0, 0) 2, processList := [],
        samplePoints := [(0, 0)], count := 0, ctr := 3 }
    = { grid := putInGrid
          (putInGrid (putInGrid (putInGrid (fun _ _ => none) (0, 0) 2) (67 / 25, 0) 2)
            (4, 0) 2) (67 / 25, 0) 2,
        processList := [(67 / 25, 0), (4, 0), (67 / 25, 0)],
        samplePoints := [(0, 0), (67 / 25, 0), (4, 0), (67 / 25, 0)],
        count := 0, ctr := 9 } := by
  have hd1 : pdStreamC4 3 = 0 := by norm_num [pdStreamC4]
  have hd2 : pdStreamC4 (3 + 1) = 0 := by norm_num [pdStreamC4]
  simp only [pdInner]
  dsimp only
  rw [hd1, hd2, gen_c1]
  rw [if_pos ⟨rect_c1, nbhd_run4_1⟩]
  simp only [pdAccept]
  rw [if_neg (by norm_num)]
  exact inner_run4_iter2



theorem body_run4 :
    pdOuterBody pdStreamC4 10 10 (67 / 25) 2 4
      { grid := putInGrid (fun _ _ => none) (0, 0) 2, processList := [(0, 0)],
        samplePoints := [(0, 0)], count := 0, ctr := 2 }
    = { grid := putInGrid
          (putInGrid (putInGrid (putInGrid (fun _ _ => none) (0, 0) 2) (67 / 25, 0) 2)
            (4, 0) 2) (67 / 25, 0) 2,
        processList := [(67 / 25, 0), (4, 0), (67 / 25, 0)],
        samplePoints := [(0, 0), (67 / 25, 0), (4, 0), (67 / 25, 0)],
        count := 0, ctr := 9 } := by
  unfold pdOuterBody
  dsimp only
  rw [show pdStreamC4 2 = 0 by norm_num [pdStreamC4]]
  rw [show (⌊(0 : ℝ) * (([((0 : ℝ), (0 : ℝ))] : List (ℝ × ℝ)).length : ℝ)⌋).toNat = 0 by
    simp]
  exact inner_run4_iter1

theorem run4_outer (f : ℕ) :
    pdOuter pdStreamC4 10 10 (67 / 25) 2 4 (f + 1)
      { grid := putInGrid (fun _ _ => none) (0, 0) 2, processList := [(0, 0)],
        samplePoints := [(0, 0)], count := 0, ctr := 2 }
      = some [(0, 0), (67 / 25, 0), (4, 0), (67 / 25, 0)] := by
  simp only [pdOuter]
  rw [body_run4]
  norm_num

theorem run4 :
    PoissonDisks pdStreamC4 10 10 4 16
      = some [(0, 0), (67 / 25, 0), (4, 0), (67 / 25, 0)] := by
  unfold PoissonDisks
  rw [pdMinDist_eval4, pdCellSize_eval4]
  have hinit : pdInit pdStreamC4 10 10 2
      = { grid := putInGrid (fun _ _ => none) (0, 0) 2, processList := [(0, 0)],
          samplePoints := [(0, 0)], count := 0, ctr := 2 } := by
    have h0 : pdStreamC4 0 = 0 := by norm_num [pdStreamC4]
    have h1 : pdStreamC4 1 = 0 := by norm_num [pdStreamC4]
    simp [pdInit, h0, h1]
  rw [hinit]
  exact run4_outer 15

/-- Claim C4: evaluation of the code at the failing input.  With
`width = height = 10`, `numPoints = 4` and the random stream whose sixth draw
is `33/67` (all others zero), `PoissonDisks` returns a list containing the two
distinct points `(67/25, 0)` and `(4, 0)`, whose Euclidean distance `33/25` is
below `minDist = min(sqrt((width+height)*2.5), 0.67*numPoints) = 67/25`,
contradicting the guaranteed minimum pairwise separation. -/
theorem C4_separation_violated :
    ∃ pts, PoissonDisks pdStreamC4 10 10 4 16 = some pts ∧
      ((67 / 25 : ℝ), (0 : ℝ)) ∈ pts ∧ ((4 : ℝ), (0 : ℝ)) ∈ pts ∧
      ((67 / 25 : ℝ), (0 : ℝ)) ≠ ((4 : ℝ), (0 : ℝ)) ∧
      Real.sqrt (((67 / 25 : ℝ) - 4) ^ 2 + ((0 : ℝ) - 0) ^ 2)
        < min (Real.sqrt (((10 : ℝ) + 10) * 2.5)) (0.67 * (4 : ℕ)) := by
  refine ⟨_, run4, by simp, by simp, ?_, ?_⟩
  · intro h
    have h1 := congrArg Prod.fst h
    norm_num at h1
  · have hdist : Real.sqrt (((67 / 25 : ℝ) - 4) ^ 2 + ((0 : ℝ) - 0) ^ 2) = 33 / 25 := by
      rw [show ((67 / 25 : ℝ) - 4) ^ 2 + ((0 : ℝ) - 0) ^ 2 = (33 / 25 : ℝ) ^ 2 by norm_num]
      exact Real.sqrt_sq (by norm_num)
    rw [hdist]
    apply lt_min
    · rw [Real.lt_sqrt (by positivity)]
      norm_num
    · norm_num

/-- Claim C9 (counterexample): with `numPoints = 1`, `PoissonDisks` returns
two points (on the all-zero stream, within the code's own iteration budget),
exceeding the claimed `numPoints` upper bound. -/
theorem C9_counterexample :
    ∃ pts, PoissonDisks pdStreamZero 10 10 1 1 = some pts ∧ 1 < pts.length :=
  ⟨_, run1, by norm_num⟩

/-- Witness for C9_amended on the concrete four-point run. -/
theorem C9_witness :
    1 ≤ ([((0 : ℝ), (0 : ℝ)), (67 / 25, 0), (4, 0), (67 / 25, 0)] : List (ℝ × ℝ)).length ∧
    (2 ≤ 4 →
      ([((0 : ℝ), (0 : ℝ)), (67 / 25, 0), (4, 0), (67 / 25, 0)] : List (ℝ × ℝ)).length ≤ 4) :=
  C9_amended pdStreamC4 10 10 4 16 _ run4

end Terrain
